import Mathlib

/-! Shallow embedding of the `gemini_podcast_kb` repository
(`app.py`, `ingest_pdfs.py`, `query.py`) and proofs about it.

Python strings are modelled as `List Char` (sequences of code points);
`str.lower` / `str.isalnum` are modelled over the ASCII range, which is the
range the repository's own identifiers and metadata use.  Python exceptions
are modelled with `Except String`; a remote client is modelled as a record of
pure functions (`IngestEnv`); the unbounded polling loop of
`wait_for_operation` is modelled with explicit fuel, `none` denoting
divergence.
-/

namespace GeminiKB

/-- Python `str.strip()` whitespace set restricted to ASCII
(space, tab, newline, carriage return, vertical tab, form feed). -/
def pyIsSpace (c : Char) : Bool :=
  c = ' ' || c = '\t' || c = '\n' || c = '\r' || c = '\x0b' || c = '\x0c'

/-- Strip a longest left run of characters satisfying `p`
(the left half of Python `str.strip`). -/
def stripLeft (p : Char → Bool) : List Char → List Char
  | [] => []
  | c :: cs => if p c then stripLeft p cs else c :: cs

/-- Strip a longest right run of characters satisfying `p`
(the right half of Python `str.strip`). -/
def stripRight (p : Char → Bool) : List Char → List Char
  | [] => []
  | c :: cs =>
    match stripRight p cs with
    | [] => if p c then [] else [c]
    | ds => c :: ds

/-- Python `str.strip(chars)`: strip both ends. -/
def pyStrip (p : Char → Bool) (l : List Char) : List Char :=
  stripRight p (stripLeft p l)

/-- Python `text.replace("\n", " ")` (the pattern is a single character, so
the replacement is a character-wise map). -/
def replace_newlines (l : List Char) : List Char :=
  l.map fun c => if c = '\n' then ' ' else c

/-- The `"..."` marker appended to truncated snippets. -/
def ellipsis : List Char := ['.', '.', '.']

/-- Citation snippet of `app.py` `ask_question` (lines 53-54):
`text = (ctx.text or "").replace("\n", " ")`,
`snippet = text[:400] + ("..." if len(text) > 400 else "")`. -/
def ask_question_snippet (ctxText : List Char) : List Char :=
  let text := replace_newlines ctxText
  text.take 400 ++ (if 400 < text.length then ellipsis else [])

/-- Citation snippet of `query.py` `main` (lines 78-79):
`text = ctx.text or ""`,
`snippet = text[:400].replace("\n", " ") + ("..." if len(text) > 400 else "")`. -/
def query_main_snippet (ctxText : List Char) : List Char :=
  replace_newlines (ctxText.take 400) ++ (if 400 < ctxText.length then ellipsis else [])

lemma replace_newlines_length (l : List Char) :
    (replace_newlines l).length = l.length := by
  simp [replace_newlines]

lemma replace_newlines_take (l : List Char) (n : Nat) :
    (replace_newlines l).take n = replace_newlines (l.take n) := by
  simp [replace_newlines, List.map_take]

lemma replace_newlines_of_not_mem (l : List Char) (h : '\n' ∉ l) :
    replace_newlines l = l := by
  induction l with
  | nil => rfl
  | cons c cs ih =>
    simp only [List.mem_cons, not_or] at h
    simp [replace_newlines, List.map_cons] at ih ⊢
    exact ⟨by simp [Ne.symm h.1], by simpa [replace_newlines] using ih h.2⟩

lemma snippets_agree (t : List Char) :
    ask_question_snippet t = query_main_snippet t := by
  simp [ask_question_snippet, query_main_snippet, replace_newlines_length,
    replace_newlines_take]

lemma stripLeft_sublist (p : Char → Bool) :
    ∀ l : List Char, List.Sublist (stripLeft p l) l := by
  intro l
  induction l with
  | nil => simp [stripLeft]
  | cons c cs ih =>
    by_cases h : p c
    · simpa [stripLeft, h] using ih.cons c
    · simp [stripLeft, h]

lemma stripLeft_head_not (p : Char → Bool) :
    ∀ l c cs, stripLeft p l = c :: cs → p c = false := by
  intro l
  induction l with
  | nil => intro c cs h; simp [stripLeft] at h
  | cons a as ih =>
    intro c cs h
    by_cases ha : p a
    · exact ih c cs (by simpa [stripLeft, ha] using h)
    · simp [stripLeft, ha] at h
      simp [← h.1, ha]

lemma stripRight_cons (p : Char → Bool) (c : Char) (cs : List Char) :
    stripRight p (c :: cs) =
      match stripRight p cs with
      | [] => if p c then [] else [c]
      | ds => c :: ds := rfl

lemma stripRight_sublist (p : Char → Bool) :
    ∀ l : List Char, List.Sublist (stripRight p l) l := by
  intro l
  induction l with
  | nil => simp [stripRight]
  | cons c cs ih =>
    rw [stripRight_cons]
    cases hd : stripRight p cs with
    | nil =>
      by_cases h : p c <;> simp [h]
    | cons d ds =>
      exact (hd ▸ ih).cons₂ c

lemma stripRight_head? (p : Char → Bool) :
    ∀ l : List Char, stripRight p l = [] ∨ (stripRight p l).head? = l.head? := by
  intro l
  cases l with
  | nil => left; rfl
  | cons c cs =>
    rw [stripRight_cons]
    cases hd : stripRight p cs with
    | nil =>
      by_cases h : p c
      · left; simp [h]
      · right; simp [h]
    | cons d ds => right; rfl

lemma stripRight_getLast_not (p : Char → Bool) :
    ∀ l c, (stripRight p l).getLast? = some c → p c = false := by
  intro l
  induction l with
  | nil => intro c h; simp [stripRight] at h
  | cons a as ih =>
    intro c h
    rw [stripRight_cons] at h
    cases hd : stripRight p as with
    | nil =>
      rw [hd] at h
      by_cases ha : p a
      · simp [ha] at h
      · simp [ha] at h
        simp [← h, ha]
    | cons d ds =>
      rw [hd] at h
      rw [List.getLast?_cons_cons] at h
      exact ih c (hd ▸ h)

lemma pyStrip_sublist (p : Char → Bool) (l : List Char) :
    List.Sublist (pyStrip p l) l :=
  (stripRight_sublist p (stripLeft p l)).trans (stripLeft_sublist p l)

lemma pyStrip_head_not (p : Char → Bool) (l : List Char) (c : Char) (cs : List Char)
    (h : pyStrip p l = c :: cs) : p c = false := by
  rcases stripRight_head? p (stripLeft p l) with he | hh
  · rw [pyStrip, he] at h; exact absurd h (by simp)
  · rw [pyStrip] at h
    rw [h] at hh
    cases hsl : stripLeft p l with
    | nil => rw [hsl] at hh; simp at hh
    | cons d ds =>
      rw [hsl] at hh
      simp at hh
      exact hh ▸ stripLeft_head_not p l d ds hsl

lemma pyStrip_getLast_not (p : Char → Bool) (l : List Char) (c : Char)
    (h : (pyStrip p l).getLast? = some c) : p c = false :=
  stripRight_getLast_not p (stripLeft p l) c h

/-- Characters trimmed from each suggestion line by `app.py`
`suggest_questions` (line 125): `q.strip(" -*\n\r\t")`. -/
def suggest_strip_chars (c : Char) : Bool :=
  c = ' ' || c = '-' || c = '*' || c = '\n' || c = '\r' || c = '\t'

/-- Response parsing of `app.py` `suggest_questions` (lines 122-130):
`questions = [q.strip(" -*\n\r\t") for q in text.split("\n") if q.strip()]`,
`questions = [q for q in questions if len(q) > 10][:count]`. -/
def parse_suggestions (text : List Char) (count : Nat) : List (List Char) :=
  let questions :=
    ((text.splitOn '\n').filter fun q => !(pyStrip pyIsSpace q).isEmpty).map
      fun q => pyStrip suggest_strip_chars q
  (questions.filter fun q => 10 < q.length).take count

/-- ASCII characters a slug may contain besides hyphens: the
twenty-six lowercase letters and the ten digits. -/
def isLowerAlnum (c : Char) : Bool :=
  decide ((97 ≤ c.toNat ∧ c.toNat ≤ 122) ∨ (48 ≤ c.toNat ∧ c.toNat ≤ 57))

/-- Lowercase hexadecimal digit, the alphabet of `uuid.uuid4().hex`. -/
def isLowerHex (c : Char) : Bool :=
  decide ((48 ≤ c.toNat ∧ c.toNat ≤ 57) ∨ (97 ≤ c.toNat ∧ c.toNat ≤ 102))

/-- Python `str.lower` restricted to the ASCII range. -/
def pyLower (c : Char) : Char :=
  if 65 ≤ c.toNat ∧ c.toNat ≤ 90 then Char.ofNat (c.toNat + 32) else c

/-- Python `str.isalnum` restricted to the ASCII range
(uppercase letters, lowercase letters, digits). -/
def pyIsAlnum (c : Char) : Bool :=
  decide ((65 ≤ c.toNat ∧ c.toNat ≤ 90) ∨ (97 ≤ c.toNat ∧ c.toNat ≤ 122) ∨
    (48 ≤ c.toNat ∧ c.toNat ≤ 57))

/-- Normalized slug of `ingest_pdfs.py` `file_resource_name` (lines 40-43):
`"".join(c if c.isalnum() else "-" for c in value.lower().strip()).strip("-")`. -/
def normalized_slug (value : List Char) : List Char :=
  pyStrip (fun c => c = '-')
    ((pyStrip pyIsSpace (value.map pyLower)).map fun c => if pyIsAlnum c then c else '-')

/-- The constant `"file"` placeholder. -/
def filePlaceholder : List Char := ['f', 'i', 'l', 'e']

/-- Resource namer of `ingest_pdfs.py` `file_resource_name` (lines 39-49);
the random suffix `uuid.uuid4().hex[:8]` is passed in as a parameter. -/
def file_resource_name (value suffix : List Char) : List Char :=
  let slug := normalized_slug value
  let slug := if slug = [] then filePlaceholder else slug
  let max_base := (max 1 (40 - (suffix.length : Int) - 1)).toNat
  let slug := if slug.take max_base = [] then filePlaceholder else slug.take max_base
  slug ++ '-' :: suffix

lemma getLast?_mem : ∀ (l : List Char) (a : Char), l.getLast? = some a → a ∈ l := by
  intro l
  induction l with
  | nil => intro a h; simp at h
  | cons c cs ih =>
    intro a h
    cases cs with
    | nil => simp at h; simp [h]
    | cons d ds =>
      rw [List.getLast?_cons_cons] at h
      exact List.mem_cons_of_mem c (ih a h)

lemma pyLower_alnum_lower (c : Char) :
    pyIsAlnum (pyLower c) = true → isLowerAlnum (pyLower c) = true := by
  intro h
  rw [pyLower] at h ⊢
  by_cases hc : 65 ≤ c.toNat ∧ c.toNat ≤ 90
  · rw [if_pos hc] at h ⊢
    obtain ⟨h1, h2⟩ := hc
    have hv : (Char.ofNat (c.toNat + 32)).toNat = c.toNat + 32 := by
      generalize c.toNat = m at *
      interval_cases m <;> decide
    rw [isLowerAlnum, hv]
    simp only [decide_eq_true_eq]
    left; omega
  · rw [if_neg hc] at h ⊢
    rw [pyIsAlnum] at h
    rw [isLowerAlnum]
    simp only [decide_eq_true_eq] at h ⊢
    omega

lemma normalized_slug_chars (value : List Char) (c : Char)
    (h : c ∈ normalized_slug value) : isLowerAlnum c = true ∨ c = '-' := by
  have h1 : c ∈ (pyStrip pyIsSpace (value.map pyLower)).map
      fun c => if pyIsAlnum c then c else '-' :=
    (pyStrip_sublist _ _).mem h
  rw [List.mem_map] at h1
  obtain ⟨d, hd, hdc⟩ := h1
  have hd2 : d ∈ value.map pyLower := (pyStrip_sublist _ _).mem hd
  rw [List.mem_map] at hd2
  obtain ⟨e, _, he⟩ := hd2
  by_cases ha : pyIsAlnum d = true
  · left
    rw [if_pos ha] at hdc
    subst hdc
    exact he ▸ pyLower_alnum_lower e (he ▸ ha)
  · right
    rw [if_neg ha] at hdc
    exact hdc.symm

lemma normalized_slug_head_not (value : List Char) (c : Char) (cs : List Char)
    (h : normalized_slug value = c :: cs) : c ≠ '-' := by
  have := pyStrip_head_not (fun c => c = '-') _ c cs h
  simpa using this

lemma normalized_slug_getLast_not (value : List Char) (c : Char)
    (h : (normalized_slug value).getLast? = some c) : c ≠ '-' := by
  have := pyStrip_getLast_not (fun c => c = '-') _ c h
  simpa using this

/-- String wrapper of the resource namer, `ingest_pdfs.py` lines 39-49. -/
def file_resource_nameS (value suffix : String) : String :=
  ⟨file_resource_name value.data suffix.data⟩

/-- A File Search store (`client.file_search_stores`): a remote-assigned identifier
plus a human display name. -/
structure Store where
  name : String
  display_name : String
deriving DecidableEq

/-- A long-running remote operation.  The source (`ingest_pdfs.py` lines
22-26) reads only `done`; the `error` field is the remote failure status the
spec describes in its Operation Waiter section ("the Operation record can
carry an error state"), carried by the handle but never inspected by the
code. -/
structure Operation where
  done : Bool
  error : Option String
deriving DecidableEq

/-- Arguments of `client.files.upload` in `ingest_pdfs.py` lines 68-74. -/
structure UploadCall where
  path : String
  name : String
  display_name : String
deriving DecidableEq

/-- Arguments of `client.file_search_stores.import_file` in
`ingest_pdfs.py` lines 81-87. -/
structure ImportCall where
  file_search_store_name : String
  file_name : String
  custom_metadata : List (String × String)
deriving DecidableEq

/-- Observable remote effects of one ingest run: an upload request,
an import submission, or the declaration (after the wait) that a file
is indexed (`ingest_pdfs.py` line 90). -/
inductive Event where
  | uploaded (call : UploadCall)
  | imported (call : ImportCall)
  | indexed (stem : String)
deriving DecidableEq

/-- The remote client (`genai.Client`) as a record of pure functions.
`Except String` models a raised exception.  `suffix` supplies the
`uuid.uuid4().hex[:8]` value used for a given file stem, and `waitFuel`
bounds the polling loop (the real loop is unbounded; `none` below models
divergence). -/
structure IngestEnv where
  getStore : String → Except String Store
  createStore : String → Store
  upload : UploadCall → Except String String
  importFile : ImportCall → Except String Operation
  opGet : Operation → Except String Operation
  waitFuel : Nat
  suffix : String → String

/-- Polling loop of `ingest_pdfs.py` `wait_for_operation` (lines 22-26):
`while not op.done: time.sleep(5); op = client.operations.get(op)`;
`return op`.  Fuel counts permitted refreshes; `none` means the loop never
observed `done` within the fuel (divergence); a raised refresh error
propagates. -/
def wait_for_operation (get : Operation → Except String Operation) :
    Nat → Operation → Option (Except String Operation)
  | 0, op => if op.done then some (Except.ok op) else none
  | fuel + 1, op =>
    if op.done then some (Except.ok op)
    else
      match get op with
      | Except.error e => some (Except.error e)
      | Except.ok op2 => wait_for_operation get fuel op2

/-- Store resolver of `ingest_pdfs.py` `get_or_create_store` (lines 29-36):
a truthy (non-None, non-empty) `store_name` is fetched, otherwise a store is
created with the display name. -/
def get_or_create_store (env : IngestEnv) (store_name : Option String)
    (display_name : String) : Except String Store :=
  match store_name with
  | some s => if s.isEmpty then Except.ok (env.createStore display_name) else env.getStore s
  | none => Except.ok (env.createStore display_name)

/-- Upload request for one PDF, `ingest_pdfs.py` lines 64-74: the path is
`pdf_path`, the resource name comes from `file_resource_name(book_title)`,
the display name is the title (`pdf_path.stem`). -/
def mkUploadCall (env : IngestEnv) (stem : String) : UploadCall :=
  { path := stem ++ ".pdf", name := file_resource_nameS stem (env.suffix stem),
    display_name := stem }

/-- Import submission for one uploaded PDF, `ingest_pdfs.py` lines 76-87:
the resolved store, the uploaded file's name, and the two metadata
entries. -/
def mkImportCall (storeName fileName stem : String) : ImportCall :=
  { file_search_store_name := storeName, file_name := fileName,
    custom_metadata := [("source_type", "book"), ("book_title", stem)] }

/-- Body of the per-file loop of `ingest_pdfs.py` `ingest_pdfs`
(lines 64-90): upload, submit the import, wait.  The result pairs the
outcome with the trace of remote effects of this file; `none` models a
diverging wait.  Note the terminal operation returned by the wait is
discarded before the file is declared indexed. -/
def ingestStep (env : IngestEnv) (storeName stem : String) :
    Option (Except String Unit × List Event) :=
  match env.upload (mkUploadCall env stem) with
  | Except.error e => some (Except.error e, [])
  | Except.ok fileName =>
    match env.importFile (mkImportCall storeName fileName stem) with
    | Except.error e => some (Except.error e, [Event.uploaded (mkUploadCall env stem)])
    | Except.ok op =>
      match wait_for_operation env.opGet env.waitFuel op with
      | none => none
      | some (Except.error e) =>
        some (Except.error e, [Event.uploaded (mkUploadCall env stem),
          Event.imported (mkImportCall storeName fileName stem)])
      | some (Except.ok _) =>
        some (Except.ok (), [Event.uploaded (mkUploadCall env stem),
          Event.imported (mkImportCall storeName fileName stem),
          Event.indexed stem])

/-- The `for idx, pdf_path in enumerate(pdf_files, ...)` loop of
`ingest_pdfs.py` lines 64-90: files are processed strictly in order, and
the first raised error aborts the remaining batch. -/
def ingestLoop (env : IngestEnv) (storeName : String) :
    List String → Option (Except String Unit × List Event)
  | [] => some (Except.ok (), [])
  | stem :: rest =>
    match ingestStep env storeName stem with
    | none => none
    | some (Except.error e, evs) => some (Except.error e, evs)
    | some (Except.ok (), evs) =>
      match ingestLoop env storeName rest with
      | none => none
      | some (res, evs2) => some (res, evs ++ evs2)

/-- Ingestion orchestrator of `ingest_pdfs.py` `ingest_pdfs` (lines 52-92).
`pdf_files` is the list of PDF stems found by `folder_path.glob("*.pdf")`.
With zero PDFs the function prints a warning and falls off the end
(returns `None`, modelled `Except.ok none`); on success it returns the
resolved `store.name`. -/
def ingest_pdfs (env : IngestEnv) (pdf_files : List String)
    (store_name : Option String) (display_name : String) :
    Option (Except String (Option String) × List Event) :=
  match get_or_create_store env store_name display_name with
  | Except.error e => some (Except.error e, [])
  | Except.ok store =>
    if pdf_files.isEmpty then some (Except.ok none, [])
    else
      match ingestLoop env store.name pdf_files with
      | none => none
      | some (Except.ok (), evs) => some (Except.ok (some store.name), evs)
      | some (Except.error e, evs) => some (Except.error e, evs)

/-- Stems declared indexed in a trace, in order. -/
def indexedStems (trace : List Event) : List String :=
  trace.filterMap fun e =>
    match e with
    | Event.indexed s => some s
    | _ => none

/-- Display names (file titles) of the uploads in a trace, in order. -/
def uploadedTitles (trace : List Event) : List String :=
  trace.filterMap fun e =>
    match e with
    | Event.uploaded call => some call.display_name
    | _ => none

/-- Import submissions of a trace, in order. -/
def importedCalls (trace : List Event) : List ImportCall :=
  trace.filterMap fun e =>
    match e with
    | Event.imported call => some call
    | _ => none

/-- Metadata filter builder of `query.py` `build_metadata_filter`
(lines 19-22): falsy (None or empty) source type means no filter, otherwise
the f-string `source_type="<value>"`. -/
def build_metadata_filter (source_type : Option String) : Option String :=
  match source_type with
  | none => none
  | some s => if s.isEmpty then none else some ("source_type=\"" ++ s ++ "\"")

/-- A `types.FileSearch` request value: store names plus optional
metadata filter. -/
structure FileSearchReq where
  file_search_store_names : List String
  metadata_filter : Option String
deriving DecidableEq

/-- Request construction of `app.py` `ask_question` (lines 26-33). -/
def ask_question_file_search (store_name : String) (source_type : Option String) :
    FileSearchReq :=
  { file_search_store_names := [store_name],
    metadata_filter :=
      match source_type with
      | none => none
      | some s => if s.isEmpty then none else some ("source_type=\"" ++ s ++ "\"") }

/-- Request construction of `app.py` `suggest_questions` (lines 103-109). -/
def suggest_questions_file_search (store_name : String) (source_type : Option String) :
    FileSearchReq :=
  { file_search_store_names := [store_name],
    metadata_filter :=
      match source_type with
      | none => none
      | some s => if s.isEmpty then none else some ("source_type=\"" ++ s ++ "\"") }

/-- A concrete remote environment in which every call succeeds and every
operation completes on the first refresh. -/
def envOK : IngestEnv :=
  { getStore := fun s => Except.ok { name := s, display_name := "existing" },
    createStore := fun d => { name := "fileSearchStores/new", display_name := d },
    upload := fun call => Except.ok ("files/" ++ call.name),
    importFile := fun _ => Except.ok { done := false, error := none },
    opGet := fun op => Except.ok { op with done := true },
    waitFuel := 3,
    suffix := fun _ => "deadbeef" }

/-- Like `envOK`, but every operation completes carrying a remote failure
status `INTERNAL` in its error field. -/
def envErrOp : IngestEnv :=
  { envOK with
    opGet := fun op => Except.ok { op with done := true, error := some "INTERNAL" } }

/-- Like `envOK`, but the import submission for the file titled `beta`
raises. -/
def envFail2 : IngestEnv :=
  { envOK with
    importFile := fun ic =>
      if ic.custom_metadata = [("source_type", "book"), ("book_title", "beta")] then
        Except.error "quota exceeded"
      else Except.ok { done := false, error := none } }

/-- Upload call observed for a stem in `envOK`-based runs. -/
def upCall (stem : String) : UploadCall :=
  { path := stem ++ ".pdf", name := stem ++ "-deadbeef", display_name := stem }

/-- Import call observed for a stem in `envOK`-based runs. -/
def impCall (stem : String) : ImportCall :=
  { file_search_store_name := "fileSearchStores/new",
    file_name := "files/" ++ stem ++ "-deadbeef",
    custom_metadata := [("source_type", "book"), ("book_title", stem)] }

/-- Trace of `ingest_pdfs envOK ["book-one", "book-two"] none "X"`. -/
def traceTwoBooks : List Event :=
  [Event.uploaded (upCall "book-one"), Event.imported (impCall "book-one"),
   Event.indexed "book-one",
   Event.uploaded (upCall "book-two"), Event.imported (impCall "book-two"),
   Event.indexed "book-two"]

/-- Trace of `ingest_pdfs envErrOp ["chapter"] none "X"`. -/
def traceChapter : List Event :=
  [Event.uploaded (upCall "chapter"), Event.imported (impCall "chapter"),
   Event.indexed "chapter"]

/-- Trace of `ingest_pdfs envFail2 ["alpha", "beta", "gamma"] none "X"`:
alpha is fully processed, beta's upload happens and its import raises,
gamma is never touched. -/
def traceFail2 : List Event :=
  [Event.uploaded (upCall "alpha"), Event.imported (impCall "alpha"),
   Event.indexed "alpha",
   Event.uploaded (upCall "beta")]

lemma ingestStep_ok (env : IngestEnv) (s stem : String) (evs : List Event)
    (h : ingestStep env s stem = some (Except.ok (), evs)) :
    ∃ fileName, evs = [Event.uploaded (mkUploadCall env stem),
      Event.imported (mkImportCall s fileName stem), Event.indexed stem] := by
  rw [ingestStep] at h
  split at h
  · simp at h
  · split at h
    · simp at h
    · split at h
      · simp at h
      · simp at h
      · simp at h
        exact ⟨_, h.symm⟩

lemma ingestStep_error (env : IngestEnv) (s stem : String) (e : String)
    (evs : List Event) (h : ingestStep env s stem = some (Except.error e, evs)) :
    evs = [] ∨ evs = [Event.uploaded (mkUploadCall env stem)] ∨
    ∃ fileName, evs = [Event.uploaded (mkUploadCall env stem),
      Event.imported (mkImportCall s fileName stem)] := by
  rw [ingestStep] at h
  split at h
  · simp at h
    exact Or.inl h.2
  · split at h
    · simp at h
      exact Or.inr (Or.inl h.2.symm)
    · split at h
      · simp at h
      · simp at h
        exact Or.inr (Or.inr ⟨_, h.2.symm⟩)
      · simp at h

lemma indexedStems_append (a b : List Event) :
    indexedStems (a ++ b) = indexedStems a ++ indexedStems b := by
  simp [indexedStems]

lemma uploadedTitles_append (a b : List Event) :
    uploadedTitles (a ++ b) = uploadedTitles a ++ uploadedTitles b := by
  simp [uploadedTitles]

lemma importedCalls_append (a b : List Event) :
    importedCalls (a ++ b) = importedCalls a ++ importedCalls b := by
  simp [importedCalls]

lemma ingestLoop_ok (env : IngestEnv) (s : String) :
    ∀ (files : List String) (evs : List Event),
      ingestLoop env s files = some (Except.ok (), evs) →
      (importedCalls evs).map (fun ic => ic.custom_metadata) =
        files.map (fun stem => [("source_type", "book"), ("book_title", stem)]) ∧
      ∀ ic ∈ importedCalls evs, ic.file_search_store_name = s := by
  intro files
  induction files with
  | nil =>
    intro evs h
    rw [ingestLoop] at h
    simp at h
    subst h
    simp [importedCalls]
  | cons stem rest ih =>
    intro evs h
    rw [ingestLoop] at h
    split at h
    · exact absurd h (by simp)
    · simp at h
    · rename_i evs1 heq
      split at h
      · exact absurd h (by simp)
      · rename_i res evs2 heq2
        simp at h
        obtain ⟨hres, hevs⟩ := h
        subst hres
        subst hevs
        obtain ⟨fileName, hevs1⟩ := ingestStep_ok env s stem evs1 heq
        subst hevs1
        obtain ⟨hmap, hall⟩ := ih evs2 heq2
        have hgroup : importedCalls [Event.uploaded (mkUploadCall env stem),
            Event.imported (mkImportCall s fileName stem), Event.indexed stem] =
            [mkImportCall s fileName stem] := by
          simp [importedCalls]
        constructor
        · rw [importedCalls_append, hgroup, List.map_append, hmap]
          rfl
        · intro ic hic
          rw [importedCalls_append, hgroup] at hic
          rcases List.mem_append.mp hic with hic1 | hic2
          · rw [List.mem_singleton] at hic1
            subst hic1
            rfl
          · exact hall ic hic2

lemma ingestLoop_error (env : IngestEnv) (s : String) :
    ∀ (files : List String) (e : String) (evs : List Event),
      ingestLoop env s files = some (Except.error e, evs) →
      files.take (indexedStems evs).length = indexedStems evs ∧
      (indexedStems evs).length < files.length ∧
      (uploadedTitles evs = indexedStems evs ∨
        uploadedTitles evs = files.take ((indexedStems evs).length + 1)) := by
  intro files
  induction files with
  | nil =>
    intro e evs h
    rw [ingestLoop] at h
    simp at h
  | cons stem rest ih =>
    intro e evs h
    rw [ingestLoop] at h
    split at h
    · exact absurd h (by simp)
    · rename_i e1 evs1 heq
      simp at h
      obtain ⟨he, hevs⟩ := h
      subst hevs
      rcases ingestStep_error env s stem e1 evs1 heq with h0 | h1 | ⟨fn, h2⟩
      · subst h0
        refine ⟨by simp [indexedStems], by simp [indexedStems], ?_⟩
        left
        simp [indexedStems, uploadedTitles]
      · subst h1
        refine ⟨by simp [indexedStems], by simp [indexedStems], ?_⟩
        right
        simp [indexedStems, uploadedTitles, mkUploadCall, List.take_succ_cons]
      · subst h2
        refine ⟨by simp [indexedStems], by simp [indexedStems], ?_⟩
        right
        simp [indexedStems, uploadedTitles, mkUploadCall, List.take_succ_cons]
    · rename_i evs1 heq
      split at h
      · exact absurd h (by simp)
      · rename_i res evs2 heq2
        simp at h
        obtain ⟨hres, hevs⟩ := h
        subst hres
        subst hevs
        obtain ⟨fileName, hevs1⟩ := ingestStep_ok env s stem evs1 heq
        subst hevs1
        obtain ⟨h1, h2, h3⟩ := ih e evs2 heq2
        have hidx : indexedStems
            ([Event.uploaded (mkUploadCall env stem),
              Event.imported (mkImportCall s fileName stem),
              Event.indexed stem] ++ evs2) = stem :: indexedStems evs2 := by
          simp [indexedStems_append, indexedStems]
        have hup : uploadedTitles
            ([Event.uploaded (mkUploadCall env stem),
              Event.imported (mkImportCall s fileName stem),
              Event.indexed stem] ++ evs2) =
            stem :: uploadedTitles evs2 := by
          simp [uploadedTitles_append, uploadedTitles, mkUploadCall]
        rw [hidx, hup]
        refine ⟨?_, by simpa using h2, ?_⟩
        · simp [List.take_succ_cons, h1]
        · rcases h3 with h3 | h3
          · left; rw [h3]
          · right
            simp [List.take_succ_cons, h3]

/-- Claim C9: the two citation-snippet computations — `app.py`'s, which
collapses newlines to spaces and then truncates to 400 characters, and
`query.py`'s, which truncates to 400 characters and then collapses
newlines — produce identical snippet strings for every source text, and the
newline replacement is length-preserving, so the ellipsis condition
`len(text) > 400` is evaluated on the same number in both. -/
theorem c9_snippet_computations_agree (t : List Char) :
    ask_question_snippet t = query_main_snippet t ∧
    (replace_newlines t).length = t.length :=
  ⟨snippets_agree t, replace_newlines_length t⟩

/-- Claim C6: with no source-type filter the built request's metadata
filter is absent (`none`), both in `query.py`'s `build_metadata_filter` and
in the `types.FileSearch` value built by `app.py`'s `ask_question`; with
source type `"book"` the filter string is exactly `source_type="book"`. -/
theorem c6_metadata_filter (store : String) :
    build_metadata_filter none = none ∧
    build_metadata_filter (some "book") = some "source_type=\"book\"" ∧
    (ask_question_file_search store none).metadata_filter = none ∧
    (ask_question_file_search store (some "book")).metadata_filter =
      some "source_type=\"book\"" ∧
    (ask_question_file_search store (some "book")).file_search_store_names =
      [store] :=
  ⟨rfl, rfl, rfl, rfl, rfl⟩

/-- Claim C10: an empty string as the source-type value behaves exactly like
no filter: `build_metadata_filter` returns `none` for both `none` and `""`,
and the requests built by `ask_question` and `suggest_questions` with `""`
carry no metadata filter (unrestricted query), not a filter on the empty
string. -/
theorem c10_empty_source_type (store : String) :
    build_metadata_filter (some "") = none ∧
    build_metadata_filter none = none ∧
    (ask_question_file_search store (some "")).metadata_filter =
      (ask_question_file_search store none).metadata_filter ∧
    (suggest_questions_file_search store (some "")).metadata_filter = none :=
  ⟨rfl, rfl, rfl, rfl⟩

/-- Claim C8: for every response text and requested count, the parsing in
`suggest_questions` splits the text on line breaks, trims the bullet/markup
characters, keeps no line whose trimmed length is at most 10 characters,
returns at most `count` items, and preserves the original response order
(the result is a sublist of the trimmed split lines). -/
theorem c8_suggestion_parsing (text : List Char) (count : Nat) :
    (parse_suggestions text count).length ≤ count ∧
    (∀ q ∈ parse_suggestions text count, 10 < q.length) ∧
    List.Sublist (parse_suggestions text count)
      ((text.splitOn '\n').map fun q => pyStrip suggest_strip_chars q) := by
  refine ⟨List.length_take_le _ _, ?_, ?_⟩
  · intro q hq
    rw [parse_suggestions] at hq
    have hq2 := List.mem_of_mem_take hq
    have := (List.mem_filter.mp hq2).2
    simpa using this
  · rw [parse_suggestions]
    refine ((List.take_sublist _ _).trans (List.filter_sublist _)).trans ?_
    exact (List.filter_sublist _).map fun q => pyStrip suggest_strip_chars q

/-- Claim C1: the citation snippet of the query engine is the source text
with newlines collapsed to single spaces and then capped at 400 characters,
the ellipsis marker appended exactly when truncation occurred; the snippet
length is bounded by the 400-character cap (plus the 3-character marker)
regardless of source length; a 500-character source gives exactly 400
characters plus the ellipsis, and a 50-character (newline-free) source is
returned unmodified with no ellipsis. -/
theorem c1_citation_snippet (t : List Char) :
    (ask_question_snippet t).length ≤ 400 + ellipsis.length ∧
    (t.length ≤ 400 → ask_question_snippet t = replace_newlines t ∧
      (ask_question_snippet t).length ≤ 400) ∧
    (400 < t.length →
      ask_question_snippet t = (replace_newlines t).take 400 ++ ellipsis) ∧
    (t.length = 500 →
      (ask_question_snippet t).length = 400 + ellipsis.length) ∧
    (t.length = 50 → '\n' ∉ t → ask_question_snippet t = t) := by
  have hlen := replace_newlines_length t
  by_cases h : 400 < t.length
  · have hif : (400 < (replace_newlines t).length) = True := by
      simp [hlen, h]
    have heq : ask_question_snippet t = (replace_newlines t).take 400 ++ ellipsis := by
      rw [ask_question_snippet]
      simp only [hif, if_true]
    have hlen2 : (ask_question_snippet t).length = 400 + ellipsis.length := by
      rw [heq, List.length_append, List.length_take, hlen]
      omega
    exact ⟨le_of_eq hlen2, fun hc => absurd hc (by omega), fun _ => heq,
      fun _ => hlen2, fun hc => absurd hc (by omega)⟩
  · push_neg at h
    have hif : (400 < (replace_newlines t).length) = False := by
      simp [hlen]; omega
    have heq : ask_question_snippet t = replace_newlines t := by
      rw [ask_question_snippet]
      simp only [hif, if_false, List.append_nil]
      exact List.take_of_length_le (by omega)
    have hlen2 : (ask_question_snippet t).length ≤ 400 := by
      rw [heq, hlen]; omega
    refine ⟨by omega, fun _ => ⟨heq, hlen2⟩, fun hc => absurd hc (by omega),
      fun hc => by omega, fun _ hnl => ?_⟩
    rw [heq]
    exact replace_newlines_of_not_mem t hnl

/-- Witness for C1 at a concrete 500-character source and a concrete
50-character source. -/
theorem c1_citation_snippet_witness :
    (ask_question_snippet (List.replicate 500 'a')).length = 400 + ellipsis.length ∧
    ask_question_snippet (List.replicate 50 'a') = List.replicate 50 'a' :=
  ⟨(c1_citation_snippet (List.replicate 500 'a')).2.2.2.1
     (by rw [List.length_replicate]),
   (c1_citation_snippet (List.replicate 50 'a')).2.2.2.2
     (by rw [List.length_replicate])
     (by intro hm; exact absurd (List.eq_of_mem_replicate hm) (by decide))⟩

lemma file_resource_name_take31 (value suffix : List Char) (hlen : suffix.length = 8) :
    file_resource_name value suffix =
      (if normalized_slug value = [] then filePlaceholder
       else normalized_slug value).take 31 ++ '-' :: suffix := by
  have hmb : (max 1 (40 - (suffix.length : Int) - 1)).toNat = 31 := by
    rw [hlen]; decide
  rw [file_resource_name]
  simp only [hmb]
  cases h : normalized_slug value with
  | nil => rfl
  | cons c cs =>
    rw [show (31 : Nat) = 30 + 1 from rfl]
    simp [List.take_succ_cons]

/-- Claim C4: for every title, `file_resource_name` (with its 8-character
lowercase-hex uuid suffix) produces a name composed only of lowercase
alphanumerics and hyphens, with no leading or trailing hyphen, of total
length at most 40, substituting the placeholder `"file"` for the base when
the normalized title is empty. -/
theorem c4_resource_name (value suffix : List Char) (hlen : suffix.length = 8)
    (hhex : ∀ c ∈ suffix, isLowerHex c = true) :
    (∀ c ∈ file_resource_name value suffix, isLowerAlnum c = true ∨ c = '-') ∧
    (file_resource_name value suffix).head? ≠ some '-' ∧
    (file_resource_name value suffix).getLast? ≠ some '-' ∧
    (file_resource_name value suffix).length ≤ 40 ∧
    (normalized_slug value = [] →
      file_resource_name value suffix = filePlaceholder ++ '-' :: suffix) := by
  rw [file_resource_name_take31 value suffix hlen]
  set base := (if normalized_slug value = [] then filePlaceholder
    else normalized_slug value) with hbase
  refine ⟨?_, ?_, ?_, ?_, ?_⟩
  · intro c hc
    rcases List.mem_append.mp hc with hc1 | hc2
    · have hc1m : c ∈ base := List.mem_of_mem_take hc1
      rw [hbase] at hc1m
      by_cases hns : normalized_slug value = []
      · rw [if_pos hns] at hc1m
        left
        simp [filePlaceholder] at hc1m
        rcases hc1m with rfl | rfl | rfl | rfl <;> decide
      · rw [if_neg hns] at hc1m
        exact normalized_slug_chars value c hc1m
    · rcases List.mem_cons.mp hc2 with hc3 | hc4
      · right; exact hc3
      · left
        have hh := hhex c hc4
        rw [isLowerHex] at hh
        rw [isLowerAlnum]
        simp only [decide_eq_true_eq] at hh ⊢
        omega
  · have hbne : ∃ d ds, base = d :: ds ∧ d ≠ '-' := by
      rw [hbase]
      by_cases hns : normalized_slug value = []
      · rw [if_pos hns]; exact ⟨'f', _, rfl, by decide⟩
      · rw [if_neg hns]
        cases hsl : normalized_slug value with
        | nil => exact absurd hsl hns
        | cons d ds => exact ⟨d, ds, rfl, normalized_slug_head_not value d ds hsl⟩
    obtain ⟨d, ds, hb, hd⟩ := hbne
    rw [hb]
    rw [show (31 : Nat) = 30 + 1 from rfl, List.take_succ_cons]
    simp [hd]
  · cases hs : suffix with
    | nil => rw [hs] at hlen; simp at hlen
    | cons a as =>
      rw [List.getLast?_append_of_ne_nil _ (by simp), List.getLast?_cons_cons]
      intro hlast
      have hmem : '-' ∈ suffix := by
        rw [hs]; exact getLast?_mem (a :: as) '-' hlast
      have hh := hhex '-' hmem
      exact absurd hh (by decide)
  · rw [List.length_append]
    simp only [List.length_cons, hlen]
    have hle : (base.take 31).length ≤ 31 := List.length_take_le _ _
    omega
  · intro hns
    rw [hbase, if_pos hns]
    rfl

/-- Witness for C4 at a concrete title and concrete hex suffix. -/
theorem c4_resource_name_witness :
    (file_resource_name "My Book: Vol 1".data "deadbeef".data).length ≤ 40 ∧
    (file_resource_name "My Book: Vol 1".data "deadbeef".data).head? ≠ some '-' :=
  ⟨(c4_resource_name "My Book: Vol 1".data "deadbeef".data (by decide)
      (by decide)).2.2.2.1,
   (c4_resource_name "My Book: Vol 1".data "deadbeef".data (by decide)
      (by decide)).2.1⟩

/-- Counterexample to claim C2: on a directory with zero matching PDFs,
`ingest_pdfs` returns `None` — neither a count nor the resolved store
identifier — even though the store was resolved (here to
`fileSearchStores/new`), so it does not return the pair
`(0, storeId)` the claim states. -/
theorem c2_counterexample :
    ingest_pdfs envOK [] none "X" = some (Except.ok none, []) ∧
    (envOK.createStore "X").name = "fileSearchStores/new" ∧
    ingest_pdfs envOK [] none "X" ≠
      some (Except.ok (some "fileSearchStores/new"), []) := by
  refine ⟨rfl, rfl, ?_⟩
  rw [show ingest_pdfs envOK [] none "X" = some (Except.ok none, []) from rfl]
  simp

/-- Claim C2 (amended): `ingest_pdfs` returns a single value, not a pair:
on success it returns the name of the store resolved at the start; for a
directory containing zero matching PDF files it returns `None` (reporting
neither a count nor the store identifier) and does not raise. -/
theorem c2_ingest_return (env : IngestEnv) (d : String) (files : List String)
    (sn : Option String) (sname : String) (tr : List Event)
    (h : ingest_pdfs env files sn d = some (Except.ok (some sname), tr)) :
    ingest_pdfs env [] none d = some (Except.ok none, []) ∧
    ∃ st, get_or_create_store env sn d = Except.ok st ∧ st.name = sname := by
  refine ⟨rfl, ?_⟩
  rw [ingest_pdfs] at h
  cases hg : get_or_create_store env sn d with
  | error e => rw [hg] at h; simp at h
  | ok st =>
    rw [hg] at h
    simp only [] at h
    by_cases hf : files.isEmpty
    · rw [if_pos hf] at h; simp at h
    · rw [if_neg hf] at h
      split at h
      · simp at h
      · simp at h
        exact ⟨st, rfl, h.1⟩
      · simp at h

/-- Witness for the amended C2 at a concrete environment: a successful
two-file run together with the zero-PDF behaviour. -/
theorem c2_ingest_return_witness :
    ingest_pdfs envOK [] none "X" = some (Except.ok none, []) :=
  (c2_ingest_return envOK "X" ["book-one", "book-two"] none
    "fileSearchStores/new" traceTwoBooks (by rfl)).1

/-- Claim C3 (evaluated at the failing input): the Operation Waiter returns
only a terminal operation whose done flag is set — here
`done = true` — but when that terminal operation carries the remote failure
status `INTERNAL`, `ingest_pdfs` discards the returned operation, declares
the file indexed, and reports overall success: the failure status is not
surfaced to the caller. -/
theorem c3_failure_status_ignored :
    wait_for_operation envErrOp.opGet envErrOp.waitFuel
      { done := false, error := none } =
      some (Except.ok { done := true, error := some "INTERNAL" }) ∧
    ingest_pdfs envErrOp ["chapter"] none "X" =
      some (Except.ok (some "fileSearchStores/new"), traceChapter) ∧
    Event.indexed "chapter" ∈ traceChapter := by
  refine ⟨rfl, rfl, ?_⟩
  simp [traceChapter]

/-- Claim C5: in every successful batch ingest of N files there are exactly
N import submissions, and — positionally, the i-th submission for the i-th
file — each carries exactly the two metadata entries `source_type = "book"`
and `book_title = <that file's title>`: the metadata lists of the
submissions, in order, are exactly the per-file metadata of the batch, in
order.  The single store identifier resolved once at the start of the batch
is the one used by every import. -/
theorem c5_metadata_and_store (env : IngestEnv) (files : List String)
    (sn : Option String) (d sname : String) (trace : List Event)
    (h : ingest_pdfs env files sn d = some (Except.ok (some sname), trace)) :
    (importedCalls trace).length = files.length ∧
    (∃ st, get_or_create_store env sn d = Except.ok st ∧ st.name = sname) ∧
    (importedCalls trace).map (fun ic => ic.custom_metadata) =
      files.map (fun stem => [("source_type", "book"), ("book_title", stem)]) ∧
    ∀ ic ∈ importedCalls trace, ic.file_search_store_name = sname := by
  rw [ingest_pdfs] at h
  cases hg : get_or_create_store env sn d with
  | error e => rw [hg] at h; simp at h
  | ok st =>
    rw [hg] at h
    simp only [] at h
    by_cases hf : files.isEmpty
    · rw [if_pos hf] at h; simp at h
    · rw [if_neg hf] at h
      split at h
      · simp at h
      · rename_i evs heq
        simp at h
        obtain ⟨hname, hevs⟩ := h
        subst hevs
        obtain ⟨hmap, hall⟩ := ingestLoop_ok env st.name files _ heq
        refine ⟨?_, ⟨st, rfl, hname⟩, hmap, ?_⟩
        · have hlen := congrArg List.length hmap
          simpa using hlen
        · intro ic hic
          exact hname ▸ hall ic hic
      · simp at h

/-- Witness for C5: in the concrete two-file run, the two import
submissions carry, in order, exactly the metadata of the two files. -/
theorem c5_metadata_and_store_witness :
    (importedCalls traceTwoBooks).length = 2 ∧
    (importedCalls traceTwoBooks).map (fun ic => ic.custom_metadata) =
      [[("source_type", "book"), ("book_title", "book-one")],
       [("source_type", "book"), ("book_title", "book-two")]] := by
  have h := c5_metadata_and_store envOK ["book-one", "book-two"] none "X"
    "fileSearchStores/new" traceTwoBooks (by rfl)
  exact ⟨by simpa using h.1, by simpa using h.2.2.1⟩

/-- Claim C7: when a batch ingest fails while processing one file (upload
error, import submission error, or wait refresh error), the raised error
propagates to the caller and the batch is aborted immediately: the indexed
files are exactly an initial segment of the batch (imports completed before
the failure are kept, not rolled back), and beyond that segment at most the
failing file itself was uploaded — no later file is touched. -/
theorem c7_failure_aborts_batch (env : IngestEnv) (files : List String)
    (sn : Option String) (d e : String) (st : Store) (trace : List Event)
    (hst : get_or_create_store env sn d = Except.ok st)
    (h : ingest_pdfs env files sn d = some (Except.error e, trace)) :
    files.take (indexedStems trace).length = indexedStems trace ∧
    (indexedStems trace).length < files.length ∧
    (uploadedTitles trace = indexedStems trace ∨
      uploadedTitles trace = files.take ((indexedStems trace).length + 1)) := by
  rw [ingest_pdfs] at h
  cases hg : get_or_create_store env sn d with
  | error e2 => rw [hg] at hst; simp at hst
  | ok st2 =>
    rw [hg] at h
    simp only [] at h
    by_cases hf : files.isEmpty
    · rw [if_pos hf] at h; simp at h
    · rw [if_neg hf] at h
      split at h
      · simp at h
      · simp at h
      · rename_i e2 evs heq
        simp at h
        obtain ⟨he, hevs⟩ := h
        subst hevs
        exact ingestLoop_error env st2.name files e2 _ heq

/-- Witness for C7: in the concrete three-file run whose second import
submission raises, exactly the first file is indexed and only the first two
files were ever uploaded. -/
theorem c7_failure_aborts_batch_witness :
    (["alpha", "beta", "gamma"] : List String).take
        (indexedStems traceFail2).length = indexedStems traceFail2 ∧
    (indexedStems traceFail2).length <
      (["alpha", "beta", "gamma"] : List String).length := by
  have h := c7_failure_aborts_batch envFail2 ["alpha", "beta", "gamma"] none "X"
    "quota exceeded" { name := "fileSearchStores/new", display_name := "X" }
    traceFail2 (by rfl) (by rfl)
  exact ⟨h.1, h.2.1⟩

end GeminiKB
